import Mathlib

/-!
Verification of the BOXMEOUT_STELLA prediction-market contracts.

This file gives a shallow embedding of the three Soroban contracts
(`amm.rs`, `market.rs`, `oracle.rs`) of the repository and proves
properties of the embedded operations.

Modelling conventions:
* Soroban `Address` values are modelled as `Nat`.
* `u32`, `u64`, `u128` are modelled as `Nat`; `i128` as `Int`.  Rust
  `i128` division truncates toward zero, so the embedding uses
  `Int.tdiv` wherever the source divides `i128` values.  Arithmetic is
  modelled on unbounded integers: with the mandatory Soroban
  overflow checks an overflowing source execution aborts the whole
  operation, so every *successful* source execution computes the same
  values as the unbounded model.
* A Rust `panic!` / `expect` / failed `Result` is modelled as `none`
  (or an explicit `Except.error` for `market.rs` entry points that
  return `Result<_, MarketError>`); the all-or-nothing failure policy
  of the contracts means a failing call leaves the pre-call state
  unchanged.
* The durable key-value store of each contract instance is flattened
  into a Lean structure; per-user maps become functions `Nat → Option _`.
* External collaborators (the token ledger, `env.crypto().sha256`,
  the clock) are passed in as explicit arguments, mirroring how the
  source reads `env.ledger().timestamp()` and calls the token client.
  Token transfers themselves are out of scope (external ledger), but
  the *amounts* transferred are returned by the embedded operations.
-/

namespace Boxmeout

/-- Market states, from `market.rs`. -/
def STATE_OPEN : Nat := 0

/-- CLOSED market state constant from `market.rs`. -/
def STATE_CLOSED : Nat := 1

/-- RESOLVED market state constant from `market.rs`. -/
def STATE_RESOLVED : Nat := 2

/-- DISPUTED market state constant from `market.rs`. -/
def STATE_DISPUTED : Nat := 3

/-- CANCELLED market state constant from `market.rs`. -/
def STATE_CANCELLED : Nat := 4

/-- Minimum stake required to challenge, `CHALLENGE_STAKE_AMOUNT` in `oracle.rs`. -/
def CHALLENGE_STAKE_AMOUNT : Int := 1000

/-! ## Oracle / Consensus Manager (`oracle.rs`) -/

/-- Embeds `OracleManager::check_consensus` (oracle.rs:314-362).

The storage-held vote data is passed in as `votes`, the list of vote
values read for the voter list of the market (the source reads the
vote of each voter with `unwrap_or(0)`, counting a vote as YES exactly when it equals
1 and as NO otherwise), and `threshold` is the stored
`required_consensus` value.  Returns the `(bool, u32)` pair of the
source. -/
def check_consensus (votes : List Nat) (threshold : Nat) : Bool × Nat :=
  if votes.length < threshold then (false, 0)
  else
    let yes_votes := (votes.filter (fun v => v = 1)).length
    let no_votes := (votes.filter (fun v => v ≠ 1)).length
    if yes_votes ≥ threshold ∧ yes_votes > no_votes then (true, 1)
    else if no_votes ≥ threshold ∧ no_votes > yes_votes then (true, 0)
    else if yes_votes ≥ threshold ∧ no_votes ≥ threshold ∧ yes_votes = no_votes then
      (false, 0)
    else (false, 0)

/-- YES vote count of a vote list, as counted by `check_consensus`. -/
def yesCount (votes : List Nat) : Nat := (votes.filter (fun v => v = 1)).length

/-- NO vote count of a vote list, as counted by `check_consensus`. -/
def noCount (votes : List Nat) : Nat := (votes.filter (fun v => v ≠ 1)).length

/-- Per-oracle storage slice of the oracle registry (`oracle.rs`):
the `(oracle, addr)` registration flag, the `oracle_accuracy` score and
the `oracle_stake` amount. -/
structure OracleRecord where
  registered : Bool
  accuracy : Nat
  stake : Int
deriving Repr, DecidableEq

/-- Challenge record, `Challenge` in `oracle.rs` (the `oracle`,
`market_id`, `reason` and `timestamp` fields play no role in the
verified properties of `resolve_challenge` and are omitted; `stake` is
always `CHALLENGE_STAKE_AMOUNT` as created by `challenge_attestation`). -/
structure Challenge where
  challenger : Nat
  stake : Int
  resolved : Bool
deriving Repr, DecidableEq

/-- Storage slice of the `OracleManager` instance relevant to a single
`(oracle, market)` pair: admin address, oracle counter, the record of
that oracle, the challenge for that pair, the accumulated
`challenger_reward` of the challenger of that pair, the accumulated
`oracle_reward` of the oracle, and the `market_challenged` flag. -/
structure OracleMgrState where
  admin : Nat
  oracleCount : Nat
  oracle : OracleRecord
  challenge : Option Challenge
  challengerReward : Int
  oracleReward : Int
  marketChallenged : Bool
deriving Repr, DecidableEq

/-- Embeds `OracleManager::resolve_challenge` (oracle.rs:491-628) for
one `(oracle, market)` pair.  `caller` is the authenticated invoker
(the source requires the stored admin to authorize).  A `panic!` or
failed `expect` is `none`.  Rust `accuracy.saturating_sub(20)` on `u32`
is `Nat` subtraction; `oracle_stake / 2` on `i128` is `Int.tdiv`. -/
def resolve_challenge (st : OracleMgrState) (caller : Nat) (challenge_valid : Bool) :
    Option OracleMgrState :=
  if caller ≠ st.admin then none
  else
    match st.challenge with
    | none => none
    | some challenge =>
      if challenge.resolved then none
      else
        let accuracy := st.oracle.accuracy
        let oracle_stake := st.oracle.stake
        if challenge_valid then
          let new_accuracy := accuracy - 20
          let slashed_amount := Int.tdiv oracle_stake 2
          let remaining_stake := oracle_stake - slashed_amount
          let dereg := new_accuracy < 50
          some { st with
            oracle := { registered := if dereg then false else st.oracle.registered,
                        accuracy := new_accuracy,
                        stake := remaining_stake },
            oracleCount := if dereg then
                (if st.oracleCount > 0 then st.oracleCount - 1 else st.oracleCount)
              else st.oracleCount,
            challengerReward := st.challengerReward + slashed_amount,
            challenge := some { challenge with resolved := true },
            marketChallenged := false }
        else
          let new_accuracy := if accuracy ≤ 95 then accuracy + 5 else 100
          some { st with
            oracle := { st.oracle with accuracy := new_accuracy },
            oracleReward := st.oracleReward + CHALLENGE_STAKE_AMOUNT,
            challenge := some { challenge with resolved := true },
            marketChallenged := false }

/-- State of `resolve_challenge` after a call, with a failing call
leaving the state unchanged (all-or-nothing failure policy). -/
def rcResult (st : OracleMgrState) (caller : Nat) (challenge_valid : Bool) : OracleMgrState :=
  (resolve_challenge st caller challenge_valid).getD st

/-! ## Pool Engine / AMM (`amm.rs`) -/

/-- Pool storage slice of the `AMM` contract for one market:
`pool_yes_reserve`, `pool_no_reserve`, `pool_k`, `pool_lp_supply` and
the per-user per-outcome `user_shares` balances.  A `PoolState` value
represents an existing pool (`pool_exists` is true). -/
structure PoolState where
  yesReserve : Nat
  noReserve : Nat
  k : Nat
  lpSupply : Nat
  userShares : Nat → Nat → Nat

/-- Product of the two reserves of a pool, the CPMM invariant quantity. -/
def poolK (p : PoolState) : Nat := p.yesReserve * p.noReserve

/-- Embeds `AMM::buy_shares` (amm.rs:244-383).  `feeBps` is the stored
`trading_fee` (20 at instance setup).  Returns the updated pool and the
purchased share amount; `none` is a `panic!`.  The USDC pull from the
buyer is external. -/
def buy_shares (feeBps : Nat) (p : PoolState) (buyer outcome amount minShares : Nat) :
    Option (PoolState × Nat) :=
  if outcome > 1 then none
  else if amount = 0 then none
  else if p.yesReserve = 0 ∨ p.noReserve = 0 then none
  else
    let fee_amount := amount * feeBps / 10000
    let amount_after_fee := amount - fee_amount
    let quad :=
      if outcome = 1 then
        let so := amount_after_fee * p.yesReserve / (p.noReserve + amount_after_fee)
        (p.noReserve, p.yesReserve, p.noReserve + amount_after_fee, p.yesReserve - so)
      else
        let so := amount_after_fee * p.noReserve / (p.yesReserve + amount_after_fee)
        (p.yesReserve, p.noReserve, p.yesReserve + amount_after_fee, p.noReserve - so)
    let reserve_in := quad.1
    let reserve_out := quad.2.1
    let new_reserve_in := quad.2.2.1
    let new_reserve_out := quad.2.2.2
    let shares_out := amount_after_fee * reserve_out / (reserve_in + amount_after_fee)
    if shares_out < minShares then none
    else
      let old_k := p.yesReserve * p.noReserve
      let new_k := new_reserve_in * new_reserve_out
      if new_k < old_k then none
      else
        let p1 :=
          if outcome = 1 then
            { p with noReserve := p.noReserve + amount_after_fee,
                     yesReserve := p.yesReserve - shares_out }
          else
            { p with yesReserve := p.yesReserve + amount_after_fee,
                     noReserve := p.noReserve - shares_out }
        let p2 := { p1 with userShares := fun u o =>
            if u = buyer ∧ o = outcome then p1.userShares u o + shares_out
            else p1.userShares u o }
        some (p2, shares_out)

/-- Embeds `AMM::sell_shares` (amm.rs:387-520).  Returns the updated
pool and the payout after fee pushed to the seller. -/
def sell_shares (feeBps : Nat) (p : PoolState) (seller outcome shares minPayout : Nat) :
    Option (PoolState × Nat) :=
  if outcome > 1 then none
  else if shares = 0 then none
  else if p.userShares seller outcome < shares then none
  else if p.yesReserve = 0 ∨ p.noReserve = 0 then none
  else
    let payout :=
      if outcome = 1 then shares * p.noReserve / (p.yesReserve + shares)
      else shares * p.yesReserve / (p.noReserve + shares)
    let fee_amount := payout * feeBps / 10000
    let payout_after_fee := payout - fee_amount
    if payout_after_fee < minPayout then none
    else
      let new_yes := if outcome = 1 then p.yesReserve + shares else p.yesReserve - payout
      let new_no := if outcome = 1 then p.noReserve - payout else p.noReserve + shares
      if new_yes = 0 ∨ new_no = 0 then none
      else
        let newShares := fun u o =>
          if u = seller ∧ o = outcome then p.userShares u o - shares
          else p.userShares u o
        let p1 := { p with yesReserve := new_yes, noReserve := new_no,
                           userShares := newShares }
        some (p1, payout_after_fee)

/-- Trade on a pool: a `buy_shares` or a `sell_shares` call with its
arguments. -/
inductive Trade where
  | buy (buyer outcome amount minShares : Nat)
  | sell (seller outcome shares minPayout : Nat)

/-- Applies one trade to a pool. -/
def applyTrade (feeBps : Nat) (p : PoolState) (t : Trade) : Option (PoolState × Nat) :=
  match t with
  | .buy buyer outcome amount minShares => buy_shares feeBps p buyer outcome amount minShares
  | .sell seller outcome shares minPayout => sell_shares feeBps p seller outcome shares minPayout

/-- Runs a sequence of trades; a failing trade aborts with no state
change (all-or-nothing), so the pool is left as it was. -/
def runTrades (feeBps : Nat) (p : PoolState) (ts : List Trade) : PoolState :=
  ts.foldl (fun q t => ((applyTrade feeBps q t).map Prod.fst).getD q) p

/-- Embeds `AMM::get_odds` (amm.rs:526-576).  The argument is `none`
when no pool exists for the market, otherwise the `(yes_reserve,
no_reserve)` pair read from storage. -/
def get_odds (pool : Option (Nat × Nat)) : Nat × Nat :=
  match pool with
  | none => (5000, 5000)
  | some (yes_reserve, no_reserve) =>
    if yes_reserve = 0 ∧ no_reserve = 0 then (5000, 5000)
    else if yes_reserve = 0 then (0, 10000)
    else if no_reserve = 0 then (10000, 0)
    else
      let total_liquidity := yes_reserve + no_reserve
      let yes_odds := no_reserve * 10000 / total_liquidity
      let no_odds := yes_reserve * 10000 / total_liquidity
      let total_odds := yes_odds + no_odds
      if total_odds ≠ 10000 then
        let adjustment := 10000 - total_odds
        if yes_odds ≥ no_odds then (yes_odds + adjustment, no_odds)
        else (yes_odds, no_odds + adjustment)
      else (yes_odds, no_odds)

/-- Modelled from the claim wording of C4 (and spec section 4.1): each
odds value is the opposite reserve times 10000 divided by the total,
with the rounding remainder added to the larger side.  Used only to
compare the claimed formula with `get_odds` as the source defines it. -/
def oddsClaimFormula (yes_reserve no_reserve : Nat) : Nat × Nat :=
  let total := yes_reserve + no_reserve
  let yes_odds := no_reserve * 10000 / total
  let no_odds := yes_reserve * 10000 / total
  let remainder := 10000 - (yes_odds + no_odds)
  if yes_odds ≥ no_odds then (yes_odds + remainder, no_odds)
  else (yes_odds, no_odds + remainder)

/-! ## Market State Machine (`market.rs`) -/

/-- Error codes of `market.rs`, `MarketError`. -/
inductive MarketError where
  | InvalidMarketState
  | MarketClosed
  | InvalidAmount
  | DuplicateCommit
  | TransferFailed
  | NotInitialized
  | NoPrediction
  | AlreadyClaimed
  | NotWinner
  | MarketNotResolved
  | InvalidReveal
  | DuplicateReveal
deriving Repr, DecidableEq

/-- Commitment record of the commit-reveal scheme, `Commitment` in
`market.rs`.  The 32-byte commit hash is modelled as a byte list. -/
structure Commitment where
  user : Nat
  commit_hash : List Nat
  amount : Int
  timestamp : Nat
deriving Repr, DecidableEq

/-- Revealed prediction record, `UserPrediction` in `market.rs`. -/
structure UserPrediction where
  user : Nat
  outcome : Nat
  amount : Int
  claimed : Bool
  timestamp : Nat
deriving Repr, DecidableEq

/-- Dispute record stored by `dispute_market` (the `reason` and
`evidence` fields play no role in the verified properties). -/
structure DisputeRecord where
  user : Nat
  timestamp : Nat
deriving Repr, DecidableEq

/-- Storage of one initialized `PredictionMarket` instance
(`market.rs` persistent keys).  Per-user maps are functions from the
user address. -/
structure MarketStore where
  creator : Nat
  closingTime : Nat
  resolutionTime : Nat
  status : Nat
  yesPool : Int
  noPool : Int
  totalVolume : Int
  pendingCount : Nat
  commitments : Nat → Option Commitment
  predictions : Nat → Option UserPrediction
  participants : List Nat
  winningOutcome : Option Nat
  winnerShares : Option Int
  loserShares : Option Int
  dispute : Option DisputeRecord

/-- Big-endian byte serialization of a `u32`, `outcome.to_be_bytes()`
in the reveal preimage of `market.rs`. -/
def outcomeBeBytes (outcome : Nat) : List Nat :=
  [outcome / 16777216 % 256, outcome / 65536 % 256, outcome / 256 % 256, outcome % 256]

/-- Reveal preimage `market_id ++ outcome.to_be_bytes() ++ salt`, the
byte string hashed by `reveal_prediction` (market.rs:497-500). -/
def revealPreimage (market_id : List Nat) (outcome : Nat) (salt : List Nat) : List Nat :=
  market_id ++ outcomeBeBytes outcome ++ salt

/-- Embeds `PredictionMarket::commit_prediction` (market.rs:289-394).
`now` is `env.ledger().timestamp()`; the USDC escrow transfer is
external.  The `NotInitialized` paths do not arise: a `MarketStore`
value is an initialized market. -/
def commit_prediction (s : MarketStore) (now user : Nat) (commit_hash : List Nat)
    (amount : Int) : Except MarketError MarketStore :=
  if s.status ≠ STATE_OPEN then .error .InvalidMarketState
  else if now ≥ s.closingTime then .error .MarketClosed
  else if amount ≤ 0 then .error .InvalidAmount
  else if (s.commitments user).isSome then .error .DuplicateCommit
  else
    let newCommits := fun v =>
      if v = user then some { user := user, commit_hash := commit_hash,
                              amount := amount, timestamp := now }
      else s.commitments v
    .ok { s with commitments := newCommits,
                 participants := s.participants ++ [user],
                 pendingCount := s.pendingCount + 1 }

/-- Embeds `PredictionMarket::reveal_prediction` (market.rs:441-583).
`hashFn` stands for the external `env.crypto().sha256` primitive;
`market_id` is the function argument of the source (the preimage uses
the argument, not the stored id).  Rust `u32` decrement of the pending
count is guarded by the source to stay at 0, which is `Nat`
subtraction. -/
def reveal_prediction (hashFn : List Nat → List Nat) (s : MarketStore)
    (now user : Nat) (market_id : List Nat) (outcome : Nat) (amount : Int)
    (salt : List Nat) : Except MarketError MarketStore :=
  if s.status ≠ STATE_OPEN then .error .InvalidMarketState
  else if now ≥ s.closingTime then .error .MarketClosed
  else if (s.predictions user).isSome then .error .DuplicateReveal
  else
    match s.commitments user with
    | none => .error .NoPrediction
    | some commitment =>
      if amount ≠ commitment.amount then .error .InvalidAmount
      else if hashFn (revealPreimage market_id outcome salt) ≠ commitment.commit_hash then
        .error .InvalidReveal
      else
        let newPreds := fun v =>
          if v = user then some { user := user, outcome := outcome, amount := amount,
                                  claimed := false, timestamp := now }
          else s.predictions v
        let newCommits := fun v => if v = user then none else s.commitments v
        .ok { s with predictions := newPreds,
                     yesPool := if outcome = 1 then s.yesPool + amount else s.yesPool,
                     noPool := if outcome = 1 then s.noPool else s.noPool + amount,
                     totalVolume := s.totalVolume + amount,
                     pendingCount := s.pendingCount - 1,
                     commitments := newCommits }

/-- Embeds `PredictionMarket::close_market` (market.rs:586-625);
`panic!` is `none`. -/
def close_market (s : MarketStore) (now : Nat) : Option MarketStore :=
  if now < s.closingTime then none
  else if s.status ≠ STATE_OPEN then none
  else some { s with status := STATE_CLOSED }

/-- Embeds `PredictionMarket::resolve_market` (market.rs:638-743).
The source comments out the cross-contract call to the oracle
(market.rs:677-684) and instead hardcodes `consensus_reached = true`
and `final_outcome = 1` (market.rs:686-688); the embedding mirrors
that code as written. -/
def resolve_market (s : MarketStore) (now : Nat) : Option MarketStore :=
  if now < s.resolutionTime then none
  else if s.status = STATE_OPEN then none
  else if s.status = STATE_RESOLVED then none
  else
    let final_outcome := 1
    if final_outcome > 1 then none
    else
      let winner_shares := if final_outcome = 1 then s.yesPool else s.noPool
      let loser_shares := if final_outcome = 1 then s.noPool else s.yesPool
      some { s with winningOutcome := some final_outcome,
                    winnerShares := some winner_shares,
                    loserShares := some loser_shares,
                    status := STATE_RESOLVED }

/-- Embeds `PredictionMarket::dispute_market` (market.rs:755-822);
the dispute stake transfer is external. -/
def dispute_market (s : MarketStore) (now user : Nat) : Option MarketStore :=
  if s.status ≠ STATE_RESOLVED then none
  else if now ≥ s.resolutionTime + 604800 then none
  else some { s with status := STATE_DISPUTED,
                     dispute := some { user := user, timestamp := now } }

/-- Embeds `PredictionMarket::claim_winnings` (market.rs:845-968).
Returns the updated store and the net payout transferred; `none` is a
`panic!`.  Rust `i128` division truncates toward zero (`Int.tdiv`). -/
def claim_winnings (s : MarketStore) (user : Nat) : Option (MarketStore × Int) :=
  if s.status ≠ STATE_RESOLVED then none
  else
    match s.predictions user with
    | none => none
    | some prediction =>
      if prediction.claimed then none
      else
        match s.winningOutcome with
        | none => none
        | some winning_outcome =>
          if prediction.outcome ≠ winning_outcome then none
          else
            match s.winnerShares with
            | none => none
            | some winner_shares =>
              let loser_shares := s.loserShares.getD 0
              let total_pool := winner_shares + loser_shares
              if winner_shares = 0 then none
              else
                let gross_payout := Int.tdiv (prediction.amount * total_pool) winner_shares
                let fee := Int.tdiv gross_payout 10
                let net_payout := gross_payout - fee
                if net_payout = 0 then none
                else
                  let newPreds := fun v =>
                    if v = user then some { prediction with claimed := true }
                    else s.predictions v
                  some ({ s with predictions := newPreds }, net_payout)

/-- Refund-and-remove step of the participant loop of `cancel_market`
(market.rs:1356-1372): a participant with a live commitment has it
removed (and refunded, externally); otherwise a participant with a
prediction has it removed. -/
def cancelStep (maps : (Nat → Option Commitment) × (Nat → Option UserPrediction))
    (u : Nat) : (Nat → Option Commitment) × (Nat → Option UserPrediction) :=
  match maps.1 u with
  | some _ => (fun v => if v = u then none else maps.1 v, maps.2)
  | none =>
    match maps.2 u with
    | some _ => (maps.1, fun v => if v = u then none else maps.2 v)
    | none => maps

/-- Embeds `PredictionMarket::cancel_market` (market.rs:1315-1397);
refund transfers are external. -/
def cancel_market (s : MarketStore) (caller : Nat) : Option MarketStore :=
  if caller ≠ s.creator then none
  else if s.status = STATE_RESOLVED then none
  else if s.status = STATE_CANCELLED then none
  else
    let maps := s.participants.foldl cancelStep (s.commitments, s.predictions)
    some { s with commitments := maps.1,
                  predictions := maps.2,
                  participants := [],
                  status := STATE_CANCELLED }

/-- Public mutating entry points of the market contract with their
arguments, used to quantify over arbitrary call sequences. -/
inductive MarketOp where
  | commit (now user : Nat) (commit_hash : List Nat) (amount : Int)
  | reveal (now user : Nat) (market_id : List Nat) (outcome : Nat) (amount : Int)
      (salt : List Nat)
  | close (now : Nat)
  | resolve (now : Nat)
  | dispute (now user : Nat)
  | claim (user : Nat)
  | cancel (caller : Nat)

/-- Applies one entry point to the store; a failing call (typed error
or `panic!`) leaves the store unchanged, per the all-or-nothing
failure policy of the contracts. -/
def applyOp (hashFn : List Nat → List Nat) (s : MarketStore) (op : MarketOp) : MarketStore :=
  match op with
  | .commit now user h a => (commit_prediction s now user h a).toOption.getD s
  | .reveal now user mid o a salt =>
      (reveal_prediction hashFn s now user mid o a salt).toOption.getD s
  | .close now => (close_market s now).getD s
  | .resolve now => (resolve_market s now).getD s
  | .dispute now user => (dispute_market s now user).getD s
  | .claim user => ((claim_winnings s user).map Prod.fst).getD s
  | .cancel caller => (cancel_market s caller).getD s

/-- Concrete pool used as evaluation input: the Scenario A pool of the
spec (deposit 1000000 split 50/50) with no outstanding user shares. -/
def examplePool : PoolState :=
  { yesReserve := 500000, noReserve := 500000, k := 250000000000,
    lpSupply := 1000000, userShares := fun _ _ => 0 }

/-- Concrete oracle-manager state used as evaluation input: one freshly
registered oracle (accuracy 100, stake ten times the challenge stake)
with an open challenge. -/
def exampleOracleState : OracleMgrState :=
  { admin := 0, oracleCount := 1,
    oracle := { registered := true, accuracy := 100, stake := 10000 },
    challenge := some { challenger := 5, stake := 1000, resolved := false },
    challengerReward := 0, oracleReward := 0, marketChallenged := true }

/-- Concrete freshly initialized market used as evaluation input
(closing time 100, resolution time 200, no participants yet). -/
def baseMarket : MarketStore :=
  { creator := 0, closingTime := 100, resolutionTime := 200, status := STATE_OPEN,
    yesPool := 0, noPool := 0, totalVolume := 0, pendingCount := 0,
    commitments := fun _ => none, predictions := fun _ => none, participants := [],
    winningOutcome := none, winnerShares := none, loserShares := none, dispute := none }

/-- Concrete resolved market matching Scenario C of the spec:
winner_shares 1000, loser_shares 500, user 0 revealed amount 500 on the
winning outcome 1 and has not claimed. -/
def scenarioCMarket : MarketStore :=
  { baseMarket with
    status := STATE_RESOLVED, yesPool := 1000, noPool := 500,
    totalVolume := 1500, winningOutcome := some 1, winnerShares := some 1000,
    loserShares := some 500,
    predictions := fun u =>
      if u = 0 then
        some { user := 0, outcome := 1, amount := 500, claimed := false, timestamp := 5 }
      else none }

/-- Concrete commitment binding amount 500 to outcome 1 under the
identity hash (the commit hash is the reveal preimage itself). -/
def exampleCommitment : Commitment :=
  { user := 0,
    commit_hash := revealPreimage (List.replicate 32 0) 1 (List.replicate 32 7),
    amount := 500, timestamp := 1 }

/-- Concrete OPEN market in which user 0 holds `exampleCommitment` and
has not yet revealed. -/
def exampleCommitMarket : MarketStore :=
  { baseMarket with
    commitments := fun u => if u = 0 then some exampleCommitment else none,
    participants := [0], pendingCount := 1 }

/-- Runs a sequence of market entry-point calls. -/
def runOps (hashFn : List Nat → List Nat) (s : MarketStore) (ops : List MarketOp) :
    MarketStore :=
  ops.foldl (applyOp hashFn) s

/-- Invariant used for the double-claim analysis: the market is no
longer OPEN and the prediction of user `u`, if it still exists, is
marked claimed. -/
def claimInv (u : Nat) (s : MarketStore) : Prop :=
  s.status ≠ STATE_OPEN ∧ ((s.predictions u).all fun p => p.claimed) = true

end Boxmeout

open Boxmeout

/-- C8: `check_consensus` reports consensus with the majority outcome
exactly when the count of one outcome is both at least the threshold and
strictly greater than the count of the other; a tie at or above the threshold is
reported as not reached. -/
theorem c8_consensus_majority_iff (votes : List Nat) (T : Nat) :
    (check_consensus votes T = (true, 1) ↔
      yesCount votes ≥ T ∧ yesCount votes > noCount votes) ∧
    (check_consensus votes T = (true, 0) ↔
      noCount votes ≥ T ∧ noCount votes > yesCount votes) ∧
    (yesCount votes = noCount votes → (check_consensus votes T).1 = false) := by
  have hlen : votes.length = yesCount votes + noCount votes := by
    unfold yesCount noCount
    have hpred : (fun v : Nat => decide (v ≠ 1)) = (fun v : Nat => !(decide (v = 1))) := by
      funext v; simp
    rw [hpred]
    exact List.length_eq_length_filter_add _
  have hcc : check_consensus votes T =
      if votes.length < T then (false, 0)
      else if yesCount votes ≥ T ∧ yesCount votes > noCount votes then (true, 1)
      else if noCount votes ≥ T ∧ noCount votes > yesCount votes then (true, 0)
      else if yesCount votes ≥ T ∧ noCount votes ≥ T ∧ yesCount votes = noCount votes then
        (false, 0)
      else (false, 0) := rfl
  rw [hcc]
  by_cases h0 : votes.length < T
  · have hy : ¬(yesCount votes ≥ T ∧ yesCount votes > noCount votes) := by omega
    have hn : ¬(noCount votes ≥ T ∧ noCount votes > yesCount votes) := by omega
    simp [if_pos h0, hy, hn]
  · simp only [if_neg h0]
    by_cases h1 : yesCount votes ≥ T ∧ yesCount votes > noCount votes
    · have hn : ¬(noCount votes ≥ T ∧ noCount votes > yesCount votes) := by omega
      have hne : yesCount votes ≠ noCount votes := by omega
      simp [if_pos h1, h1.1, h1.2, hn, hne]
    · simp only [if_neg h1]
      by_cases h2 : noCount votes ≥ T ∧ noCount votes > yesCount votes
      · have hne : yesCount votes ≠ noCount votes := by omega
        simp [if_pos h2, h2.1, h2.2, h1, hne]
      · simp only [if_neg h2]
        by_cases h3 : yesCount votes ≥ T ∧ noCount votes ≥ T ∧
            yesCount votes = noCount votes
        · simp [if_pos h3, h1, h2]
        · simp [if_neg h3, h1, h2]

/-- Witness for C8: two YES votes out of three with threshold 2 reach
consensus on outcome 1; the tie clause of the theorem applied to one YES and
one NO vote at threshold 1 reports no consensus. -/
theorem c8_consensus_majority_iff_witness :
    check_consensus [1, 1, 0] 2 = (true, 1) ∧
    (check_consensus [1, 0] 1).1 = false :=
  ⟨(c8_consensus_majority_iff [1, 1, 0] 2).1.mpr (by decide),
   (c8_consensus_majority_iff [1, 0] 1).2.2 (by decide)⟩

/-- Core CPMM arithmetic fact: moving `s` into the input reserve and
removing the floor-divided output `s * y / (x + s)` from the output
reserve cannot decrease the reserve product. -/
theorem cpmm_product_mono (x y s : Nat) : x * y ≤ (x + s) * (y - s * y / (x + s)) := by
  have hqle : (x + s) * (s * y / (x + s)) ≤ s * y := by
    rw [Nat.mul_comm]
    exact Nat.div_mul_le_self _ _
  have hqy : s * y / (x + s) ≤ y := by
    rcases Nat.eq_zero_or_pos (x + s) with h | h
    · simp [h]
    · have hle : s * y ≤ (x + s) * y := Nat.mul_le_mul_right y (Nat.le_add_left s x)
      calc s * y / (x + s) ≤ (x + s) * y / (x + s) := Nat.div_le_div_right hle
        _ = y := Nat.mul_div_cancel_left y h
  have h1 : (x + s) * (y - s * y / (x + s)) + (x + s) * (s * y / (x + s)) = (x + s) * y := by
    rw [← Nat.mul_add, Nat.sub_add_cancel hqy]
  have h2 : x * y + s * y = (x + s) * y := (Nat.add_mul x s y).symm
  have key : x * y + (x + s) * (s * y / (x + s)) ≤
      (x + s) * (y - s * y / (x + s)) + (x + s) * (s * y / (x + s)) := by
    rw [h1]
    calc x * y + (x + s) * (s * y / (x + s)) ≤ x * y + s * y :=
          Nat.add_le_add_left hqle _
      _ = (x + s) * y := h2
  exact Nat.le_of_add_le_add_right key

/-- Reserve-product monotonicity of a successful `buy_shares` call. -/
theorem buy_shares_k (feeBps : Nat) (p : PoolState) (buyer outcome amount minShares : Nat)
    (r : PoolState × Nat) (h : buy_shares feeBps p buyer outcome amount minShares = some r) :
    poolK p ≤ poolK r.1 := by
  by_cases ho : outcome = 1
  · subst ho
    simp only [buy_shares, if_neg (by omega : ¬(1 : Nat) > 1), if_true, if_false] at h
    by_cases h2 : amount = 0
    · rw [if_pos h2] at h; exact absurd h (by simp)
    rw [if_neg h2] at h
    by_cases h3 : p.yesReserve = 0 ∨ p.noReserve = 0
    · rw [if_pos h3] at h; exact absurd h (by simp)
    rw [if_neg h3] at h
    set a := amount - amount * feeBps / 10000 with ha
    set so := a * p.yesReserve / (p.noReserve + a) with hso
    by_cases h4 : so < minShares
    · rw [if_pos h4] at h; exact absurd h (by simp)
    rw [if_neg h4] at h
    by_cases h5 : (p.noReserve + a) * (p.yesReserve - so) < p.yesReserve * p.noReserve
    · rw [if_pos h5] at h; exact absurd h (by simp)
    rw [if_neg h5] at h
    have hr : r.1.yesReserve = p.yesReserve - so ∧ r.1.noReserve = p.noReserve + a := by
      have := (Option.some.injEq _ _).mp h
      rw [← this]
      exact ⟨rfl, rfl⟩
    have hmono := cpmm_product_mono p.noReserve p.yesReserve a
    have e1 : poolK p = p.noReserve * p.yesReserve := Nat.mul_comm _ _
    have e2 : poolK r.1 = (p.noReserve + a) * (p.yesReserve - so) := by
      rw [poolK, hr.1, hr.2, Nat.mul_comm]
    rw [e1, e2, hso]
    exact hmono
  · have ho0 : outcome = 0 ∨ outcome > 1 := by omega
    rcases ho0 with ho0 | hogt
    · subst ho0
      simp only [buy_shares, if_neg (by omega : ¬(0 : Nat) > 1),
        if_neg (by omega : ¬(0 : Nat) = 1), if_true, if_false] at h
      by_cases h2 : amount = 0
      · rw [if_pos h2] at h; exact absurd h (by simp)
      rw [if_neg h2] at h
      by_cases h3 : p.yesReserve = 0 ∨ p.noReserve = 0
      · rw [if_pos h3] at h; exact absurd h (by simp)
      rw [if_neg h3] at h
      set a := amount - amount * feeBps / 10000 with ha
      set so := a * p.noReserve / (p.yesReserve + a) with hso
      by_cases h4 : so < minShares
      · rw [if_pos h4] at h; exact absurd h (by simp)
      rw [if_neg h4] at h
      by_cases h5 : (p.yesReserve + a) * (p.noReserve - so) < p.yesReserve * p.noReserve
      · rw [if_pos h5] at h; exact absurd h (by simp)
      rw [if_neg h5] at h
      have hr : r.1.yesReserve = p.yesReserve + a ∧ r.1.noReserve = p.noReserve - so := by
        have := (Option.some.injEq _ _).mp h
        rw [← this]
        exact ⟨rfl, rfl⟩
      have hmono := cpmm_product_mono p.yesReserve p.noReserve a
      have e2 : poolK r.1 = (p.yesReserve + a) * (p.noReserve - so) := by
        rw [poolK, hr.1, hr.2]
      rw [poolK, e2, hso]
      exact hmono
    · simp only [buy_shares, if_pos hogt] at h
      exact absurd h (by simp)

/-- Reserve-product monotonicity of a successful `sell_shares` call. -/
theorem sell_shares_k (feeBps : Nat) (p : PoolState) (seller outcome shares minPayout : Nat)
    (r : PoolState × Nat) (h : sell_shares feeBps p seller outcome shares minPayout = some r) :
    poolK p ≤ poolK r.1 := by
  by_cases ho : outcome = 1
  · subst ho
    simp only [sell_shares, if_neg (by omega : ¬(1 : Nat) > 1), if_true, if_false] at h
    by_cases h2 : shares = 0
    · rw [if_pos h2] at h; exact absurd h (by simp)
    rw [if_neg h2] at h
    by_cases h3 : p.userShares seller 1 < shares
    · rw [if_pos h3] at h; exact absurd h (by simp)
    rw [if_neg h3] at h
    by_cases h4 : p.yesReserve = 0 ∨ p.noReserve = 0
    · rw [if_pos h4] at h; exact absurd h (by simp)
    rw [if_neg h4] at h
    set payout := shares * p.noReserve / (p.yesReserve + shares) with hpay
    by_cases h5 : payout - payout * feeBps / 10000 < minPayout
    · rw [if_pos h5] at h; exact absurd h (by simp)
    rw [if_neg h5] at h
    by_cases h6 : p.yesReserve + shares = 0 ∨ p.noReserve - payout = 0
    · rw [if_pos h6] at h; exact absurd h (by simp)
    rw [if_neg h6] at h
    have hr : r.1.yesReserve = p.yesReserve + shares ∧ r.1.noReserve = p.noReserve - payout := by
      have := (Option.some.injEq _ _).mp h
      rw [← this]
      exact ⟨rfl, rfl⟩
    have hmono := cpmm_product_mono p.yesReserve p.noReserve shares
    have e2 : poolK r.1 = (p.yesReserve + shares) * (p.noReserve - payout) := by
      rw [poolK, hr.1, hr.2]
    rw [poolK, e2, hpay]
    exact hmono
  · have ho0 : outcome = 0 ∨ outcome > 1 := by omega
    rcases ho0 with ho0 | hogt
    · subst ho0
      simp only [sell_shares, if_neg (by omega : ¬(0 : Nat) > 1),
        if_neg (by omega : ¬(0 : Nat) = 1), if_true, if_false] at h
      by_cases h2 : shares = 0
      · rw [if_pos h2] at h; exact absurd h (by simp)
      rw [if_neg h2] at h
      by_cases h3 : p.userShares seller 0 < shares
      · rw [if_pos h3] at h; exact absurd h (by simp)
      rw [if_neg h3] at h
      by_cases h4 : p.yesReserve = 0 ∨ p.noReserve = 0
      · rw [if_pos h4] at h; exact absurd h (by simp)
      rw [if_neg h4] at h
      set payout := shares * p.yesReserve / (p.noReserve + shares) with hpay
      by_cases h5 : payout - payout * feeBps / 10000 < minPayout
      · rw [if_pos h5] at h; exact absurd h (by simp)
      rw [if_neg h5] at h
      by_cases h6 : p.yesReserve - payout = 0 ∨ p.noReserve + shares = 0
      · rw [if_pos h6] at h; exact absurd h (by simp)
      rw [if_neg h6] at h
      have hr : r.1.yesReserve = p.yesReserve - payout ∧ r.1.noReserve = p.noReserve + shares := by
        have := (Option.some.injEq _ _).mp h
        rw [← this]
        exact ⟨rfl, rfl⟩
      have hmono := cpmm_product_mono p.noReserve p.yesReserve shares
      have e1 : poolK p = p.noReserve * p.yesReserve := Nat.mul_comm _ _
      have e2 : poolK r.1 = (p.noReserve + shares) * (p.yesReserve - payout) := by
        rw [poolK, hr.1, hr.2, Nat.mul_comm]
      rw [e1, e2, hpay]
      exact hmono
    · simp only [sell_shares, if_pos hogt] at h
      exact absurd h (by simp)

/-- C3: every successful `buy_shares` or `sell_shares` call leaves the
reserve product `yes_reserve * no_reserve` at least as large as before,
and consequently `k` is non-decreasing over any sequence of trades. -/
theorem c3_k_nondecreasing (feeBps : Nat) :
    (∀ (p : PoolState) (t : Trade), (applyTrade feeBps p t).isSome = true →
      poolK p ≤ poolK (((applyTrade feeBps p t).map Prod.fst).getD p)) ∧
    (∀ (p : PoolState) (ts : List Trade), poolK p ≤ poolK (runTrades feeBps p ts)) := by
  have hstep : ∀ (p : PoolState) (t : Trade),
      poolK p ≤ poolK (((applyTrade feeBps p t).map Prod.fst).getD p) := by
    intro p t
    cases happ : applyTrade feeBps p t with
    | none => simp
    | some r =>
      show poolK p ≤ poolK r.1
      cases t with
      | buy buyer outcome amount minShares =>
        exact buy_shares_k feeBps p buyer outcome amount minShares r happ
      | sell seller outcome shares minPayout =>
        exact sell_shares_k feeBps p seller outcome shares minPayout r happ
  refine ⟨fun p t _ => hstep p t, ?_⟩
  intro p ts
  induction ts generalizing p with
  | nil => simp [runTrades]
  | cons t ts ih =>
    have h1 := hstep p t
    have h2 := ih (((applyTrade feeBps p t).map Prod.fst).getD p)
    calc poolK p ≤ poolK (((applyTrade feeBps p t).map Prod.fst).getD p) := h1
      _ ≤ poolK (runTrades feeBps (((applyTrade feeBps p t).map Prod.fst).getD p) ts) := h2
      _ = poolK (runTrades feeBps p (t :: ts)) := by rw [runTrades, runTrades, List.foldl_cons]

/-- Witness for C3: a concrete buy of 10000 on outcome 1 against the
500000/500000 pool succeeds and does not decrease the product. -/
theorem c3_k_nondecreasing_witness :
    (applyTrade 20 examplePool (.buy 7 1 10000 0)).isSome = true ∧
    poolK examplePool ≤
      poolK (((applyTrade 20 examplePool (.buy 7 1 10000 0)).map Prod.fst).getD examplePool) :=
  ⟨by decide, (c3_k_nondecreasing 20).1 _ _ (by decide)⟩

/-- Sum bound for the two floor-divided odds of a pool with positive
total liquidity. -/
theorem odds_div_sum_le (yes no : Nat) (h : 0 < yes + no) :
    no * 10000 / (yes + no) + yes * 10000 / (yes + no) ≤ 10000 := by
  have h1 := Nat.add_div_le_add_div (no * 10000) (yes * 10000) (yes + no)
  have h2 : no * 10000 + yes * 10000 = (yes + no) * 10000 := by ring
  rw [h2] at h1
  have h3 : (yes + no) * 10000 / (yes + no) = 10000 := Nat.mul_div_cancel_left _ h
  omega

/-- C4 (amended): `get_odds` always returns two values summing to
exactly 10000; when both reserves are positive the returned pair is the
opposite-reserve formula with the rounding remainder added to the
larger side, but the missing-pool and zero-reserve cases are handled by
dedicated early returns of the source rather than by that formula. -/
theorem c4_odds_sum_renormalized :
    (∀ pool : Option (Nat × Nat), (get_odds pool).1 + (get_odds pool).2 = 10000) ∧
    (∀ yes no : Nat, 0 < yes → 0 < no →
      get_odds (some (yes, no)) = oddsClaimFormula yes no) ∧
    get_odds none = (5000, 5000) ∧
    get_odds (some (0, 0)) = (5000, 5000) ∧
    (∀ no : Nat, 0 < no → get_odds (some (0, no)) = (0, 10000)) ∧
    (∀ yes : Nat, 0 < yes → get_odds (some (yes, 0)) = (10000, 0)) := by
  have hformula : ∀ yes no : Nat, 0 < yes → 0 < no →
      get_odds (some (yes, no)) = oddsClaimFormula yes no := by
    intro yes no hy hn
    have hd := odds_div_sum_le yes no (by omega)
    simp only [get_odds, oddsClaimFormula]
    rw [if_neg (by omega : ¬(yes = 0 ∧ no = 0)), if_neg (by omega : ¬yes = 0),
      if_neg (by omega : ¬no = 0)]
    by_cases ht : no * 10000 / (yes + no) + yes * 10000 / (yes + no) ≠ 10000
    · rw [if_pos ht]
    · rw [if_neg ht]
      push_neg at ht
      simp [ht]
  refine ⟨?_, hformula, rfl, by decide, ?_, ?_⟩
  · intro pool
    match pool with
    | none => rfl
    | some (yes, no) =>
      by_cases h0 : yes = 0 ∧ no = 0
      · rw [h0.1, h0.2]; decide
      · by_cases hy : yes = 0
        · subst hy
          have hnz : no ≠ 0 := by omega
          simp [get_odds, hnz]
        · by_cases hn : no = 0
          · subst hn
            simp [get_odds, hy]
          · have hd := odds_div_sum_le yes no (by omega)
            simp only [get_odds]
            rw [if_neg h0, if_neg hy, if_neg hn]
            by_cases ht : no * 10000 / (yes + no) + yes * 10000 / (yes + no) ≠ 10000
            · rw [if_pos ht]
              by_cases hge : no * 10000 / (yes + no) ≥ yes * 10000 / (yes + no)
              · rw [if_pos hge]
                show no * 10000 / (yes + no) +
                  (10000 - (no * 10000 / (yes + no) + yes * 10000 / (yes + no))) +
                  yes * 10000 / (yes + no) = 10000
                omega
              · rw [if_neg hge]
                show no * 10000 / (yes + no) +
                  (yes * 10000 / (yes + no) +
                    (10000 - (no * 10000 / (yes + no) + yes * 10000 / (yes + no)))) = 10000
                omega
            · rw [if_neg ht]
              push_neg at ht
              show no * 10000 / (yes + no) + yes * 10000 / (yes + no) = 10000
              omega
  · intro no hn
    have hnz : no ≠ 0 := by omega
    simp [get_odds, hnz]
  · intro yes hy
    have hyz : yes ≠ 0 := by omega
    simp [get_odds, hyz]

/-- Counterexample for C4 as stated: with a pool whose YES reserve is
zero, `get_odds` returns the special-cased pair (0, 10000), while the
claimed opposite-reserve formula yields (10000, 0). -/
theorem c4_counterexample :
    get_odds (some (0, 5)) = (0, 10000) ∧
    oddsClaimFormula 0 5 = (10000, 0) ∧
    get_odds (some (0, 5)) ≠ oddsClaimFormula 0 5 := by decide

/-- Witness for C4: on the 1/2 pool the renormalized formula applies
(6666 + 3334 = 10000 with the remainder added to the larger YES side). -/
theorem c4_odds_sum_renormalized_witness :
    get_odds (some (1, 2)) = oddsClaimFormula 1 2 ∧
    (get_odds (some (1, 2))).1 + (get_odds (some (1, 2))).2 = 10000 :=
  ⟨c4_odds_sum_renormalized.2.1 1 2 (by decide) (by decide),
   c4_odds_sum_renormalized.1 (some (1, 2))⟩

/-- C9: `resolve_challenge` is admin-only and succeeds at most once per
challenge; when the challenge is valid it cuts accuracy by 20 points
(flooring at 0 via saturating subtraction), slashes half of the
remaining oracle stake, credits the slashed amount to the challenger
and deregisters the oracle exactly when the new accuracy is below 50;
when invalid it raises accuracy by 5 capped at 100, credits the
challenger stake to the oracle and leaves the oracle stake unchanged;
the active-challenge flag is cleared either way. -/
theorem c9_resolve_challenge_spec (st : OracleMgrState) (caller : Nat) (v : Bool)
    (h : (resolve_challenge st caller v).isSome = true) :
    caller = st.admin ∧
    st.challenge.map Challenge.resolved = some false ∧
    resolve_challenge (rcResult st caller v) caller v = none ∧
    (rcResult st caller v).marketChallenged = false ∧
    (v = true →
      (rcResult st caller v).oracle.accuracy = st.oracle.accuracy - 20 ∧
      (rcResult st caller v).oracle.stake = st.oracle.stake - Int.tdiv st.oracle.stake 2 ∧
      (rcResult st caller v).challengerReward
        = st.challengerReward + Int.tdiv st.oracle.stake 2 ∧
      (st.oracle.accuracy - 20 < 50 → (rcResult st caller v).oracle.registered = false) ∧
      (¬st.oracle.accuracy - 20 < 50 →
        (rcResult st caller v).oracle.registered = st.oracle.registered)) ∧
    (v = false →
      (rcResult st caller v).oracle.accuracy = min (st.oracle.accuracy + 5) 100 ∧
      (rcResult st caller v).oracle.stake = st.oracle.stake ∧
      (rcResult st caller v).oracleReward = st.oracleReward + CHALLENGE_STAKE_AMOUNT) := by
  have hadmin : caller = st.admin := by
    by_contra hc
    simp only [resolve_challenge, if_pos hc] at h
    simp at h
  subst hadmin
  rcases hch : st.challenge with _ | ch
  · simp [resolve_challenge, hch] at h
  · by_cases hres : ch.resolved = true
    · simp [resolve_challenge, hch, hres] at h
    · have hres' : ch.resolved = false := by
        cases hb : ch.resolved
        · rfl
        · exact absurd hb hres
      cases v with
      | true =>
        refine ⟨rfl, by simp [hres'], ?_, ?_, fun _ => ⟨?_, ?_, ?_, ?_, ?_⟩,
          fun hv => by simp at hv⟩
        · simp [resolve_challenge, rcResult, hch, hres']
        · simp [resolve_challenge, rcResult, hch, hres']
        · simp [resolve_challenge, rcResult, hch, hres']
        · simp [resolve_challenge, rcResult, hch, hres']
        · simp [resolve_challenge, rcResult, hch, hres']
        · intro hlt
          simp [resolve_challenge, rcResult, hch, hres', if_pos hlt]
        · intro hge
          simp [resolve_challenge, rcResult, hch, hres', if_neg hge]
      | false =>
        have hmin : (if st.oracle.accuracy ≤ 95 then st.oracle.accuracy + 5 else 100)
            = min (st.oracle.accuracy + 5) 100 := by
          split_ifs with hacc <;> omega
        refine ⟨rfl, by simp [hres'], ?_, ?_, fun hv => by simp at hv,
          fun _ => ⟨?_, ?_, ?_⟩⟩
        · simp [resolve_challenge, rcResult, hch, hres']
        · simp [resolve_challenge, rcResult, hch, hres']
        · simp [resolve_challenge, rcResult, hch, hres', hmin]
        · simp [resolve_challenge, rcResult, hch, hres']
        · simp [resolve_challenge, rcResult, hch, hres']

/-- Witness for C9: resolving the example challenge as valid drops
accuracy 100 to 80, slashes 5000 of the 10000 stake to the challenger,
keeps the oracle registered, clears the flag and cannot run twice. -/
theorem c9_resolve_challenge_spec_witness :
    (resolve_challenge exampleOracleState 0 true).isSome = true ∧
    (rcResult exampleOracleState 0 true).oracle.accuracy = 80 ∧
    (rcResult exampleOracleState 0 true).oracle.stake = 5000 ∧
    (rcResult exampleOracleState 0 true).challengerReward = 5000 ∧
    (rcResult exampleOracleState 0 true).marketChallenged = false ∧
    resolve_challenge (rcResult exampleOracleState 0 true) 0 true = none := by
  have h := c9_resolve_challenge_spec exampleOracleState 0 true (by decide)
  have hv := h.2.2.2.2.1 rfl
  refine ⟨by decide, ?_, ?_, ?_, h.2.2.2.1, h.2.2.1⟩
  · rw [hv.1]; decide
  · rw [hv.2.1]; decide
  · rw [hv.2.2.1]; decide

/-- C6: a successful `claim_winnings` pays out
`amount * (winner_shares + loser_shares) / winner_shares` (truncating
integer division) minus the 10 percent fee `gross / 10`; on Scenario C
of the spec (winner 1000, loser 500, amount 500 on the winning
outcome) the gross is 750, the fee 75 and the net payout 675. -/
theorem c6_claim_payout :
    (∀ (s : MarketStore) (u : Nat) (pred : UserPrediction) (w : Int),
      s.predictions u = some pred → s.winnerShares = some w →
      (claim_winnings s u).isSome = true →
      ((claim_winnings s u).map Prod.snd).getD 0 =
        Int.tdiv (pred.amount * (w + s.loserShares.getD 0)) w -
          Int.tdiv (Int.tdiv (pred.amount * (w + s.loserShares.getD 0)) w) 10) ∧
    ((claim_winnings scenarioCMarket 0).map Prod.snd).getD 0 = 675 ∧
    Int.tdiv (500 * (1000 + 500)) 1000 = 750 ∧
    Int.tdiv 750 10 = 75 ∧ (750 : Int) - 75 = 675 := by
  refine ⟨?_, by decide, by decide, by decide, by decide⟩
  intro s u pred w hpred hw h
  rcases hwo : s.winningOutcome with _ | wo
  · simp only [claim_winnings, hpred, hwo] at h
    split_ifs at h <;> simp at h
  · simp only [claim_winnings, hpred, hw, hwo] at h ⊢
    split_ifs at h ⊢ <;> simp at h ⊢

/-- Witness for C6: the general payout formula applied to the concrete
Scenario C market. -/
theorem c6_claim_payout_witness :
    (claim_winnings scenarioCMarket 0).isSome = true ∧
    ((claim_winnings scenarioCMarket 0).map Prod.snd).getD 0 =
      Int.tdiv (500 * (1000 + 500)) 1000 -
        Int.tdiv (Int.tdiv (500 * (1000 + 500)) 1000) 10 := by
  refine ⟨by decide, ?_⟩
  have h := c6_claim_payout.1 scenarioCMarket 0
    { user := 0, outcome := 1, amount := 500, claimed := false, timestamp := 5 } 1000
    (by decide) (by decide) (by decide)
  exact h

/-- C10: while a market is DISPUTED every `claim_winnings` call fails
(the claim gate requires status RESOLVED exactly), and a successful
`dispute_market` sets the status to DISPUTED, so a successful dispute
freezes all subsequent claims until the status changes. -/
theorem c10_disputed_blocks_claims :
    (∀ (s : MarketStore) (u : Nat), s.status = STATE_DISPUTED → claim_winnings s u = none) ∧
    (∀ (s : MarketStore) (now user : Nat), (dispute_market s now user).isSome = true →
      ((dispute_market s now user).getD s).status = STATE_DISPUTED) := by
  constructor
  · intro s u hs
    simp only [claim_winnings]
    rw [if_pos (by rw [hs]; decide)]
  · intro s now user h
    simp only [dispute_market] at h ⊢
    by_cases h1 : s.status ≠ STATE_RESOLVED
    · rw [if_pos h1] at h; simp at h
    · rw [if_neg h1] at h ⊢
      by_cases h2 : now ≥ s.resolutionTime + 604800
      · rw [if_pos h2] at h; simp at h
      · rw [if_neg h2]
        rfl

/-- Witness for C10: claims fail on a concrete DISPUTED market, and a
concrete successful dispute of a RESOLVED market lands in DISPUTED. -/
theorem c10_disputed_blocks_claims_witness :
    claim_winnings { baseMarket with status := STATE_DISPUTED } 0 = none ∧
    (dispute_market { baseMarket with status := STATE_RESOLVED } 200 4).isSome = true ∧
    ((dispute_market { baseMarket with status := STATE_RESOLVED } 200 4).getD
        { baseMarket with status := STATE_RESOLVED }).status = STATE_DISPUTED :=
  ⟨c10_disputed_blocks_claims.1 _ 0 rfl, by decide,
   c10_disputed_blocks_claims.2 _ 200 4 (by decide)⟩

/-- C1 (code bug): `resolve_market` never consults the Consensus
Manager — the cross-contract call is commented out and the outcome is
hardcoded to 1 — so on a CLOSED market past its resolution time it
succeeds and stores winning outcome 1 even though `check_consensus`
reports consensus not reached (here: no votes at threshold 2); the
winner and loser shares are then taken from the YES and NO pools
unconditionally. -/
theorem c1_resolve_ignores_consensus :
    check_consensus [] 2 = (false, 0) ∧
    (resolve_market { baseMarket with
      status := STATE_CLOSED, yesPool := 100, noPool := 200 } 300).isSome = true ∧
    ((resolve_market { baseMarket with
        status := STATE_CLOSED, yesPool := 100, noPool := 200 } 300).getD
      baseMarket).winningOutcome = some 1 ∧
    ((resolve_market { baseMarket with
        status := STATE_CLOSED, yesPool := 100, noPool := 200 } 300).getD
      baseMarket).winnerShares = some 100 ∧
    ((resolve_market { baseMarket with
        status := STATE_CLOSED, yesPool := 100, noPool := 200 } 300).getD
      baseMarket).loserShares = some 200 ∧
    ((resolve_market { baseMarket with
        status := STATE_CLOSED, yesPool := 100, noPool := 200 } 300).getD
      baseMarket).status = STATE_RESOLVED := by decide

/-- C2 (code bug): `resolve_market` only rejects the OPEN and RESOLVED
states, contradicting its own doc comment (panics if the state is not
CLOSED): from DISPUTED and even from CANCELLED it succeeds and moves
the market to RESOLVED. -/
theorem c2_resolve_state_gate_too_weak :
    (resolve_market { baseMarket with status := STATE_DISPUTED } 300).isSome = true ∧
    ((resolve_market { baseMarket with status := STATE_DISPUTED } 300).getD
      baseMarket).status = STATE_RESOLVED ∧
    (resolve_market { baseMarket with status := STATE_CANCELLED } 300).isSome = true ∧
    ((resolve_market { baseMarket with status := STATE_CANCELLED } 300).getD
      baseMarket).status = STATE_RESOLVED := by decide

/-- C5 (amended): on an OPEN market before closing time, with a stored
commitment and no prior reveal, `reveal_prediction` succeeds exactly
when the recomputed hash of `market_id ++ outcome (4-byte big-endian)
++ salt` equals the stored commit hash and the revealed amount equals
the committed amount; a wrong outcome or salt fails with the
reveal-specific `InvalidReveal`, while a wrong amount fails with
`InvalidAmount`. -/
theorem c5_reveal_roundtrip (hashFn : List Nat → List Nat) (s : MarketStore)
    (now user : Nat) (market_id : List Nat) (outcome : Nat) (amount : Int)
    (salt : List Nat) (commitment : Commitment)
    (hopen : s.status = STATE_OPEN) (htime : now < s.closingTime)
    (hcommit : s.commitments user = some commitment)
    (hnopred : s.predictions user = none) :
    ((reveal_prediction hashFn s now user market_id outcome amount salt).toOption.isSome
        = true ↔
      (hashFn (revealPreimage market_id outcome salt) = commitment.commit_hash ∧
        amount = commitment.amount)) ∧
    (amount ≠ commitment.amount →
      reveal_prediction hashFn s now user market_id outcome amount salt
        = .error .InvalidAmount) ∧
    (amount = commitment.amount →
      hashFn (revealPreimage market_id outcome salt) ≠ commitment.commit_hash →
      reveal_prediction hashFn s now user market_id outcome amount salt
        = .error .InvalidReveal) := by
  simp only [reveal_prediction, hopen, hcommit, hnopred]
  rw [if_neg (by omega : ¬now ≥ s.closingTime)]
  by_cases ha : amount ≠ commitment.amount
  · rw [if_pos ha]
    refine ⟨?_, fun _ => rfl, fun h1 _ => absurd h1 ha⟩
    constructor
    · intro h
      simp [Except.toOption] at h
    · intro hb
      exact absurd hb.2 ha
  · rw [if_neg ha]
    push_neg at ha
    by_cases hh : hashFn (revealPreimage market_id outcome salt) ≠ commitment.commit_hash
    · rw [if_pos hh]
      refine ⟨?_, fun hne => absurd ha hne, fun _ _ => rfl⟩
      constructor
      · intro h
        simp [Except.toOption] at h
      · intro hb
        exact absurd hb.1 hh
    · rw [if_neg hh]
      push_neg at hh
      exact ⟨iff_of_true (by simp [Except.toOption]) ⟨hh, ha⟩,
        fun hne => absurd ha hne, fun _ hcon => absurd hh hcon⟩

/-- Counterexample for C5 as stated: revealing with the wrong amount
(400 against a 500 commitment, hash and outcome correct) fails with
`InvalidAmount`, not with the reveal-specific `InvalidReveal`. -/
theorem c5_counterexample :
    reveal_prediction id exampleCommitMarket 10 0 (List.replicate 32 0) 1 400
        (List.replicate 32 7) = .error .InvalidAmount ∧
    MarketError.InvalidAmount ≠ MarketError.InvalidReveal :=
  ⟨rfl, by decide⟩

/-- Witness for C5: the matching reveal (amount 500, identity hash of
the exact preimage) succeeds on the example market. -/
theorem c5_reveal_roundtrip_witness :
    (reveal_prediction id exampleCommitMarket 10 0 (List.replicate 32 0) 1 500
        (List.replicate 32 7)).toOption.isSome = true :=
  (c5_reveal_roundtrip id exampleCommitMarket 10 0 (List.replicate 32 0) 1 500
    (List.replicate 32 7) exampleCommitment rfl (by decide) (by decide)
    (by decide)).1.mpr ⟨rfl, rfl⟩

/-- Shape of a successful `claim_winnings` call: the status gate was
RESOLVED, the status is unchanged, the caller prediction is now marked
claimed, and no other prediction changed. -/
theorem claim_winnings_shape (s : MarketStore) (user : Nat) (r : MarketStore × Int)
    (h : claim_winnings s user = some r) :
    s.status = STATE_RESOLVED ∧ r.1.status = s.status ∧
    ((r.1.predictions user).all fun p => p.claimed) = true ∧
    (∀ v, v ≠ user → r.1.predictions v = s.predictions v) := by
  by_cases hs : s.status ≠ STATE_RESOLVED
  · simp [claim_winnings, hs] at h
  · push_neg at hs
    rcases hp : s.predictions user with _ | pred
    · simp [claim_winnings, hs, hp] at h
    · rcases hwo : s.winningOutcome with _ | wo
      · simp [claim_winnings, hs, hp, hwo] at h
      · rcases hws : s.winnerShares with _ | w
        · simp [claim_winnings, hs, hp, hwo, hws] at h
        · simp only [claim_winnings, hp, hwo, hws] at h
          rw [if_neg (not_not_intro hs)] at h
          by_cases hcl : pred.claimed = true
          · rw [if_pos hcl] at h; simp at h
          rw [if_neg hcl] at h
          by_cases hout : pred.outcome ≠ wo
          · rw [if_pos hout] at h; simp at h
          rw [if_neg hout] at h
          by_cases hw0 : w = 0
          · rw [if_pos hw0] at h; simp at h
          rw [if_neg hw0] at h
          by_cases hn0 : Int.tdiv (pred.amount * (w + s.loserShares.getD 0)) w -
              Int.tdiv (Int.tdiv (pred.amount * (w + s.loserShares.getD 0)) w) 10 = 0
          · rw [if_pos hn0] at h; simp at h
          rw [if_neg hn0] at h
          have hr := (Option.some.injEq _ _).mp h
          rw [← hr]
          refine ⟨hs, rfl, by simp, fun v hv => by simp [hv]⟩

/-- Shape of a successful `resolve_market` call: status becomes
RESOLVED and predictions are untouched. -/
theorem resolve_market_shape (s : MarketStore) (now : Nat) (s2 : MarketStore)
    (h : resolve_market s now = some s2) :
    s2.status = STATE_RESOLVED ∧ s2.predictions = s.predictions := by
  simp only [resolve_market] at h
  split_ifs at h <;> try simp at h
  · rw [← h]
    exact ⟨rfl, rfl⟩

/-- Shape of a successful `dispute_market` call: status becomes
DISPUTED and predictions are untouched. -/
theorem dispute_market_shape (s : MarketStore) (now user : Nat) (s2 : MarketStore)
    (h : dispute_market s now user = some s2) :
    s2.status = STATE_DISPUTED ∧ s2.predictions = s.predictions := by
  simp only [dispute_market] at h
  split_ifs at h <;> try simp at h
  rw [← h]
  exact ⟨rfl, rfl⟩

/-- Shape of a successful `close_market` call: status becomes CLOSED
and predictions are untouched. -/
theorem close_market_shape (s : MarketStore) (now : Nat) (s2 : MarketStore)
    (h : close_market s now = some s2) :
    s2.status = STATE_CLOSED ∧ s2.predictions = s.predictions := by
  simp only [close_market] at h
  split_ifs at h <;> try simp at h
  rw [← h]
  exact ⟨rfl, rfl⟩

/-- One `cancelStep` either leaves the prediction of `v` alone or
removes it. -/
theorem cancelStep_prediction (maps : (Nat → Option Commitment) × (Nat → Option UserPrediction))
    (u v : Nat) :
    (cancelStep maps u).2 v = maps.2 v ∨ (cancelStep maps u).2 v = none := by
  unfold cancelStep
  rcases maps.1 u with _ | c
  · rcases hm : maps.2 u with _ | p
    · left; rfl
    · by_cases hv : v = u
      · right; simp [hv]
      · left; simp [hv]
  · left; rfl

/-- The participant refund loop of `cancel_market` either leaves the
prediction of `v` alone or removes it. -/
theorem foldl_cancelStep_prediction (l : List Nat)
    (maps : (Nat → Option Commitment) × (Nat → Option UserPrediction)) (v : Nat) :
    (l.foldl cancelStep maps).2 v = maps.2 v ∨ (l.foldl cancelStep maps).2 v = none := by
  induction l generalizing maps with
  | nil => left; rfl
  | cons u l ih =>
    rw [List.foldl_cons]
    rcases ih (cancelStep maps u) with h | h
    · rw [h]
      exact cancelStep_prediction maps u v
    · right; exact h

/-- Shape of a successful `cancel_market` call: status becomes
CANCELLED and every prediction is either unchanged or removed. -/
theorem cancel_market_shape (s : MarketStore) (caller : Nat) (s2 : MarketStore)
    (h : cancel_market s caller = some s2) :
    s2.status = STATE_CANCELLED ∧
    (∀ v, s2.predictions v = s.predictions v ∨ s2.predictions v = none) := by
  simp only [cancel_market] at h
  split_ifs at h <;> try simp at h
  rw [← h]
  exact ⟨rfl, fun v => foldl_cancelStep_prediction s.participants _ v⟩

/-- Under `claimInv` a `claim_winnings` call for that user fails. -/
theorem claimInv_claim_fails (u : Nat) (s : MarketStore) (h : claimInv u s) :
    claim_winnings s u = none := by
  by_cases hs : s.status ≠ STATE_RESOLVED
  · simp [claim_winnings, hs]
  · rcases hp : s.predictions u with _ | p
    · simp [claim_winnings, hs, hp]
    · have hc : p.claimed = true := by
        have h2 := h.2
        rw [hp] at h2
        simpa using h2
      simp [claim_winnings, hs, hp, hc]

/-- Every market entry point preserves `claimInv`. -/
theorem claimInv_applyOp (hashFn : List Nat → List Nat) (u : Nat) (s : MarketStore)
    (op : MarketOp) (h : claimInv u s) : claimInv u (applyOp hashFn s op) := by
  cases op with
  | commit now user ch a =>
    simp only [applyOp, commit_prediction, if_pos h.1, Except.toOption, Option.getD_some]
    exact h
  | reveal now user mid o a salt =>
    simp only [applyOp, reveal_prediction, if_pos h.1, Except.toOption, Option.getD_some]
    exact h
  | close now =>
    simp only [applyOp]
    cases hc : close_market s now with
    | none => simpa using h
    | some s2 =>
      have := close_market_shape s now s2 hc
      simp only [Option.getD_some]
      refine ⟨by rw [this.1]; decide, ?_⟩
      rw [this.2]
      exact h.2
  | resolve now =>
    simp only [applyOp]
    cases hc : resolve_market s now with
    | none => simpa using h
    | some s2 =>
      have := resolve_market_shape s now s2 hc
      simp only [Option.getD_some]
      refine ⟨by rw [this.1]; decide, ?_⟩
      rw [this.2]
      exact h.2
  | dispute now user =>
    simp only [applyOp]
    cases hc : dispute_market s now user with
    | none => simpa using h
    | some s2 =>
      have := dispute_market_shape s now user s2 hc
      simp only [Option.getD_some]
      refine ⟨by rw [this.1]; decide, ?_⟩
      rw [this.2]
      exact h.2
  | claim user =>
    simp only [applyOp]
    cases hc : claim_winnings s user with
    | none => simpa using h
    | some r =>
      have hsh := claim_winnings_shape s user r hc
      simp only [Option.map_some', Option.getD_some]
      refine ⟨by rw [hsh.2.1]; exact h.1, ?_⟩
      by_cases hv : u = user
      · rw [hv]
        exact hsh.2.2.1
      · rw [hsh.2.2.2 u hv]
        exact h.2
  | cancel caller =>
    simp only [applyOp]
    cases hc : cancel_market s caller with
    | none => simpa using h
    | some s2 =>
      have := cancel_market_shape s caller s2 hc
      simp only [Option.getD_some]
      refine ⟨by rw [this.1]; decide, ?_⟩
      rcases this.2 u with h2 | h2
      · rw [h2]; exact h.2
      · rw [h2]; rfl

/-- A sequence of entry-point calls preserves `claimInv`. -/
theorem claimInv_runOps (hashFn : List Nat → List Nat) (u : Nat) (s : MarketStore)
    (ops : List MarketOp) (h : claimInv u s) : claimInv u (runOps hashFn s ops) := by
  induction ops generalizing s with
  | nil => exact h
  | cons op ops ih =>
    rw [runOps, List.foldl_cons]
    exact ih (applyOp hashFn s op) (claimInv_applyOp hashFn u s op h)

/-- C7: after a successful `claim_winnings` the user prediction is
marked claimed, and after any further sequence of market entry-point
calls the prediction of that user is still absent-or-claimed and a
repeated `claim_winnings` by the same user fails, returning no payout. -/
theorem c7_claim_idempotent (hashFn : List Nat → List Nat) (s : MarketStore) (u : Nat)
    (ops : List MarketOp) (h : (claim_winnings s u).isSome = true) :
    ((runOps hashFn (((claim_winnings s u).map Prod.fst).getD s) ops).predictions u).all
        (fun p => p.claimed) = true ∧
    claim_winnings (runOps hashFn (((claim_winnings s u).map Prod.fst).getD s) ops) u
      = none := by
  obtain ⟨r, hr⟩ := Option.isSome_iff_exists.mp h
  have hsh := claim_winnings_shape s u r hr
  have h1 : claimInv u (((claim_winnings s u).map Prod.fst).getD s) := by
    rw [hr]
    simp only [Option.map_some', Option.getD_some]
    exact ⟨by rw [hsh.2.1, hsh.1]; decide, hsh.2.2.1⟩
  have h2 := claimInv_runOps hashFn u _ ops h1
  exact ⟨h2.2, claimInv_claim_fails u _ h2⟩

/-- Witness for C7: user 0 claims on the Scenario C market; an
immediate second claim (run as a subsequent operation and directly)
fails. -/
theorem c7_claim_idempotent_witness :
    (claim_winnings scenarioCMarket 0).isSome = true ∧
    claim_winnings (runOps id (((claim_winnings scenarioCMarket 0).map Prod.fst).getD
      scenarioCMarket) [.claim 0]) 0 = none :=
  ⟨by decide, (c7_claim_idempotent id scenarioCMarket 0 [.claim 0] (by decide)).2⟩
